import Mathlib

set_option maxRecDepth 8000

/-!
Verification of the duplicate-finder engine: a shallow embedding of
`file_scanner.py`, `stats_tracker.py`, `directory_analyzer.py` and the
`delete_file` handler of `app.py`, together with proofs of the claims
about them.

Conventions of the embedding:
* Python unbounded non-negative integers (byte counts, sizes) are `Nat`.
* Python floats only appear in `_human_readable_size`, where every
  operation performed by the code (division by 1024, comparison with
  1024, rounding to two decimals) is exact on IEEE doubles as long as
  the intermediate values are exactly representable; the embedding uses
  `ℚ`, which coincides with the float computation for inputs `< 2^53`.
* Timestamps (`datetime.now().isoformat()`) are opaque `String` values
  passed in as parameters.
* Fallible operations are modelled with `Except` / `Option`.
-/

/-! ### Size formatting (`_human_readable_size`, identical in
`file_scanner.py`, `stats_tracker.py` and `directory_analyzer.py`) -/

/-- Floor of a non-negative rational, computed on the raw numerator and
denominator. -/
def qfloor (x : ℚ) : Int :=
  Int.fdiv x.num (x.den : Int)

/-- Round a rational to the nearest integer, ties to even: the rounding
used by CPython float formatting (IEEE round-half-even), exact on the
dyadic rationals produced by dividing by 1024. -/
def roundHalfEven (x : ℚ) : Int :=
  let n := qfloor x
  let f := x - (n : ℚ)
  if f < 1 / 2 then n
  else if 1 / 2 < f then n + 1
  else if n % 2 = 0 then n else n + 1

/-- Render a non-negative rational with exactly two decimal places, as
CPython `f"{v:.2f}"` does for exactly-representable values. -/
def format2 (v : ℚ) : String :=
  let c := (roundHalfEven (100 * v)).toNat
  toString (c / 100) ++ "." ++ (if c % 100 < 10 then "0" else "") ++ toString (c % 100)

/-- Unit names tried by the formatting loop before falling back to PB. -/
def hrUnits : List String := ["B", "KB", "MB", "GB", "TB"]

/-- The loop of `_human_readable_size`: repeatedly divide by 1024 while
the value is at least 1024 and a unit remains; otherwise print with the
current unit, falling back to PB after the last division. -/
def hrLoop : ℚ → List String → String
  | v, [] => format2 v ++ " PB"
  | v, u :: us => if v < 1024 then format2 v ++ " " ++ u else hrLoop (v / 1024) us

/-- `_human_readable_size` from the source (three identical copies in
`file_scanner.py`, `stats_tracker.py`, `directory_analyzer.py`). -/
def human_readable_size (n : Nat) : String :=
  hrLoop (n : ℚ) hrUnits

/-- Unit printed for scaling exponent `k` (the claim side: unit `k`
stands for `1024 ^ k` bytes). -/
def hrUnitName : Nat → String
  | 0 => "B"
  | 1 => "KB"
  | 2 => "MB"
  | 3 => "GB"
  | 4 => "TB"
  | _ => "PB"

/-- Claim-side unit choice: the least `k` with `n / 1024 ^ k < 1024`,
capped at the PB exponent 5. -/
def hrSpecIdx (n : Nat) : Nat :=
  if n < 1024 then 0
  else if n < 1024 ^ 2 then 1
  else if n < 1024 ^ 3 then 2
  else if n < 1024 ^ 4 then 3
  else if n < 1024 ^ 5 then 4
  else 5

/-! ### Deletion ledger (`stats_tracker.py`) -/

/-- One entry of the persisted deletion history
(`StatsTracker.record_deletion`, the dict appended to `deletions`). -/
structure DeletionRecord where
  file_path : String
  size_bytes : Nat
  deleted_at : String
deriving DecidableEq, Repr

/-- The in-memory ledger dictionary `self.stats`. -/
structure Stats where
  total_files_deleted : Nat
  total_bytes_saved : Nat
  deletions : List DeletionRecord
  created_at : String
  last_updated : String
deriving DecidableEq, Repr

/-- `StatsTracker._default_stats`: the fresh zero-valued ledger, with
both timestamps set to the current time. -/
def default_stats (now : String) : Stats :=
  { total_files_deleted := 0
    total_bytes_saved := 0
    deletions := []
    created_at := now
    last_updated := now }

/-- `StatsTracker.record_deletion`: add one to the file counter, add the
size to the byte counter, stamp `last_updated`, append a history entry,
and truncate the history to its most recent 1000 entries. -/
def record_deletion (s : Stats) (fp : String) (sz : Nat) (now : String) : Stats :=
  let dels := s.deletions ++ [{ file_path := fp, size_bytes := sz, deleted_at := now }]
  { total_files_deleted := s.total_files_deleted + 1
    total_bytes_saved := s.total_bytes_saved + sz
    deletions := if 1000 < dels.length then dels.drop (dels.length - 1000) else dels
    created_at := s.created_at
    last_updated := now }

/-- Fold a batch of `record_deletion` calls (path, size, timestamp) over
a ledger, left to right. -/
def apply_deletions (s : Stats) (ops : List (String × Nat × String)) : Stats :=
  ops.foldl (fun acc op => record_deletion acc op.1 op.2.1 op.2.2) s

/-- The snapshot returned by `StatsTracker.get_stats`. -/
structure StatsSnapshot where
  total_files_deleted : Nat
  total_bytes_saved : Nat
  total_space_saved_human : String
  created_at : String
  last_updated : String
deriving DecidableEq, Repr

/-- `StatsTracker.get_stats`: the four summary fields plus the
human-readable byte total; the history array is not exposed. -/
def get_stats (s : Stats) : StatsSnapshot :=
  { total_files_deleted := s.total_files_deleted
    total_bytes_saved := s.total_bytes_saved
    total_space_saved_human := human_readable_size s.total_bytes_saved
    created_at := s.created_at
    last_updated := s.last_updated }

/-! ### Persistence of the ledger (`StatsTracker.load_stats`) -/

/-- JSON values, the codomain of `json.load`. -/
inductive Json where
  | jnull
  | jbool (b : Bool)
  | jnum (n : Int)
  | jstr (s : String)
  | jarr (xs : List Json)
  | jobj (fields : List (String × Json))

/-- The ledger as `json.dump` serialises it. -/
def deletionToJson (d : DeletionRecord) : Json :=
  .jobj [("file_path", .jstr d.file_path),
         ("size_bytes", .jnum (d.size_bytes : Int)),
         ("deleted_at", .jstr d.deleted_at)]

/-- The ledger dictionary as a JSON object, in the key order the code
builds it. -/
def statsToJson (s : Stats) : Json :=
  .jobj [("total_files_deleted", .jnum (s.total_files_deleted : Int)),
         ("total_bytes_saved", .jnum (s.total_bytes_saved : Int)),
         ("deletions", .jarr (s.deletions.map deletionToJson)),
         ("created_at", .jstr s.created_at),
         ("last_updated", .jstr s.last_updated)]

/-- Observable state of the backing stats file as `load_stats` sees it:
the file is absent, or opening/deserialising it raises, or `json.load`
succeeds and returns a JSON value. -/
inductive StoreState where
  | missing
  | unreadable
  | parsed (j : Json)

/-- `StatsTracker.load_stats`: return the parsed JSON value when
`json.load` succeeds, and the default ledger when the file is missing or
any exception is raised while reading it. -/
def load_stats (store : StoreState) (now : String) : Json :=
  match store with
  | .missing => statsToJson (default_stats now)
  | .unreadable => statsToJson (default_stats now)
  | .parsed j => j

/-- Key lookup in a JSON object (first match). -/
def jlookup (fields : List (String × Json)) (k : String) : Option Json :=
  (fields.find? (fun f => f.1 == k)).map (fun f => f.2)

/-- Well-formedness of one persisted history entry, following the
spec: an object with `filePath`/`sizeBytes`/`deletedAt` data, in the key
names this code reads and writes. -/
def isWellFormedDeletion : Json → Bool
  | .jobj fields =>
    (match jlookup fields "file_path" with | some (.jstr _) => true | _ => false) &&
    (match jlookup fields "size_bytes" with | some (.jnum n) => 0 ≤ n | _ => false) &&
    (match jlookup fields "deleted_at" with | some (.jstr _) => true | _ => false)
  | _ => false

/-- Well-formed persisted ledger state, following the spec layout:
an object carrying non-negative integer counters, a history array of at
most 1000 well-formed entries, and the two timestamps. -/
def isWellFormedStats : Json → Bool
  | .jobj fields =>
    (match jlookup fields "total_files_deleted" with | some (.jnum n) => 0 ≤ n | _ => false) &&
    (match jlookup fields "total_bytes_saved" with | some (.jnum n) => 0 ≤ n | _ => false) &&
    (match jlookup fields "deletions" with
     | some (.jarr xs) => xs.length ≤ 1000 && xs.all isWellFormedDeletion
     | _ => false) &&
    (match jlookup fields "created_at" with | some (.jstr _) => true | _ => false) &&
    (match jlookup fields "last_updated" with | some (.jstr _) => true | _ => false)
  | _ => false

/-! ### Filesystem model

Directory trees as the traversal code observes them through `pathlib`:
regular files (with a size, an optional readable content, and a flag for
whether `stat` succeeds), directories (with a flag for whether listing
them succeeds: a `False` flag stands for `iterdir` raising
`PermissionError`), and symbolic links classified by what their target
resolves to.  `Path.is_file` and `Path.is_dir` follow symlinks, while
`Path.is_symlink` detects them; `rglob` does not descend into symlinked
directories, so the target subtree of a directory symlink is never
consulted and is not modelled. -/

mutual
inductive FSEntry where
  | file (name : String) (size : Nat) (content : Option String) (statOk : Bool)
  | dir (name : String) (listOk : Bool) (children : FSList)
  | symlinkFile (name : String) (size : Nat) (content : Option String) (statOk : Bool)
  | symlinkDir (name : String)
  | symlinkBroken (name : String)
inductive FSList where
  | nil
  | cons (e : FSEntry) (es : FSList)
end

/-- The entry name (`Path.name`). -/
def FSEntry.name : FSEntry → String
  | .file n _ _ _ => n
  | .dir n _ _ => n
  | .symlinkFile n _ _ _ => n
  | .symlinkDir n => n
  | .symlinkBroken n => n

/-- View an `FSList` as an ordinary list of entries. -/
def FSList.toList : FSList → List FSEntry
  | .nil => []
  | .cons e es => e :: es.toList

/-- Path of a child inside a directory. -/
def joinPath (base name : String) : String := base ++ "/" ++ name

/-- `Path.is_file()`: follows symlinks, so plain regular files and
symlinks resolving to regular files both answer true. -/
def isFileEntry : FSEntry → Bool
  | .file _ _ _ _ => true
  | .symlinkFile _ _ _ _ => true
  | _ => false

/-- The scanned root as `scan_directory` and the analyzer validate it:
absent, present but not a directory, or a directory with a listing flag
and children. -/
inductive RootFS where
  | missing
  | notDir
  | dir (listOk : Bool) (children : FSList)

/-! ### File scanner (`file_scanner.py`) -/

/-- The SHA-256 digest of `hashlib` is external code; it is modelled as
an injective hex-fingerprint function, the idealisation the spec itself
adopts (equal fingerprints stand for equal content, and a digest string
is never empty). -/
def sha256model (content : String) : String := "h" ++ content

/-- `FileScanner.compute_file_hash`: digest of the file content, `None`
when reading raises. -/
def compute_file_hash (content : Option String) : Option String :=
  content.map sha256model

/-- The metadata record accumulated into `files_info`, restricted to the
fields the claims mention (the timestamp fields are opaque wall-clock
strings and are omitted). -/
structure FileInfo where
  file_path : String
  file_name : String
  size_bytes : Nat
  sha256_hash : Option String
  content_preview : String
deriving DecidableEq, Repr

/-- The `content_preview` field: first 500 characters of the first
10000 characters read (Python slicing, modelled on the character
list), the empty string for an empty read, and the binary-file marker
when the text read raises. -/
def previewOf : Option String → String
  | some c => if c = "" then "" else String.mk ((c.data.take 10000).take 500)
  | none => "[Binary or unreadable file]"

/-- `FileScanner.get_file_metadata` on a path that passed the `is_file`
filter: `none` models the outer exception handler returning `None` when
`stat` raises (file vanished mid-scan). -/
def get_file_metadata (path : String) : FSEntry → Option FileInfo
  | .file n sz c ok =>
    if ok then
      some { file_path := path, file_name := n, size_bytes := sz,
             sha256_hash := compute_file_hash c, content_preview := previewOf c }
    else none
  | .symlinkFile n sz c ok =>
    if ok then
      some { file_path := path, file_name := n, size_bytes := sz,
             sha256_hash := compute_file_hash c, content_preview := previewOf c }
    else none
  | _ => none

mutual
/-- One step of `Path.rglob("*")`: the entry itself, followed by its
descendants when it is a readable directory; symlinked directories are
not descended into, and a directory whose listing raises contributes no
descendants (`glob` suppresses the error). -/
def rglobEntry (base : String) : FSEntry → List (String × FSEntry)
  | .file n sz c ok => [(joinPath base n, .file n sz c ok)]
  | .dir n ok cs =>
    (joinPath base n, .dir n ok cs) ::
      (if ok then rglobList (joinPath base n) cs else [])
  | .symlinkFile n sz c ok => [(joinPath base n, .symlinkFile n sz c ok)]
  | .symlinkDir n => [(joinPath base n, .symlinkDir n)]
  | .symlinkBroken n => [(joinPath base n, .symlinkBroken n)]
/-- `Path.rglob("*")` over a list of sibling entries. -/
def rglobList (base : String) : FSList → List (String × FSEntry)
  | .nil => []
  | .cons e es => rglobEntry base e ++ rglobList base es
end

/-- Direct children paired with their paths (`Path.iterdir`). -/
def iterdirList (base : String) : FSList → List (String × FSEntry)
  | .nil => []
  | .cons e es => (joinPath base e.name, e) :: iterdirList base es

/-- Errors `scan_directory` raises: the two `ValueError`s of the root
validation, and an uncaught `PermissionError` from `iterdir`. -/
inductive ScanError where
  | valueError (msg : String)
  | permissionError
deriving DecidableEq, Repr

/-- `FileScanner.scan_directory`: clear `files_info`, validate the root,
enumerate candidate paths (recursively via `rglob` or directly via
`iterdir`) filtered by `is_file`, and accumulate the metadata records of
the candidates whose metadata extraction succeeds.  Returns the raised
error or returned list, paired with the `files_info` field afterwards;
the previous scan content `prev` is discarded unconditionally before the
root is validated. -/
def scan_directory (prev : List FileInfo) (rootPath : String) (root : RootFS)
    (recursive : Bool) : Except ScanError (List FileInfo) × List FileInfo :=
  match root with
  | .missing => (.error (.valueError ("Directory does not exist: " ++ rootPath)), [])
  | .notDir => (.error (.valueError ("Path is not a directory: " ++ rootPath)), [])
  | .dir listOk children =>
    if recursive then
      let fps := (rglobList rootPath (if listOk then children else .nil)).filter
        (fun pe => isFileEntry pe.2)
      let infos := fps.filterMap (fun pe => get_file_metadata pe.1 pe.2)
      (.ok infos, infos)
    else
      if listOk then
        let fps := (iterdirList rootPath children).filter (fun pe => isFileEntry pe.2)
        let infos := fps.filterMap (fun pe => get_file_metadata pe.1 pe.2)
        (.ok infos, infos)
      else
        (.error .permissionError, [])

/-- Append a record under a fingerprint key, preserving dict insertion
order: an existing key keeps its position and grows its list, a new key
is appended at the end. -/
def addToGroups : List (String × List FileInfo) → String → FileInfo →
    List (String × List FileInfo)
  | [], h, r => [(h, [r])]
  | (k, rs) :: gs, h, r =>
    if k = h then (k, rs ++ [r]) :: gs else (k, rs) :: addToGroups gs h r

/-- The accumulation loop of `FileScanner.group_by_hash`: records whose
hash is `None` or falsy (the empty string) are skipped. -/
def buildGroups (files : List FileInfo) : List (String × List FileInfo) :=
  files.foldl
    (fun gs r =>
      match r.sha256_hash with
      | none => gs
      | some h => if h = "" then gs else addToGroups gs h r)
    []

/-- `FileScanner.group_by_hash`: keep only the groups with more than one
record. -/
def group_by_hash (files : List FileInfo) : List (String × List FileInfo) :=
  (buildGroups files).filter (fun g => 1 < g.2.length)

/-- Lookup of a fingerprint key in an association list of groups. -/
def groupVal (gs : List (String × List FileInfo)) (h : String) : List FileInfo :=
  ((gs.find? (fun g => g.1 == h)).map (fun g => g.2)).getD []

/-! ### Directory size analyzer (`directory_analyzer.py`) -/

/-- The denylist of cloud/mount directory names that are never
traversed. -/
def cloudDenylist : List String := ["CloudStorage", "Mobile Documents"]

mutual
/-- Contribution of one directory entry to `get_directory_size` of its
parent: symlinks are skipped, a regular file contributes its size when
`stat` succeeds and 0 when it raises, a denylisted directory is skipped,
and any other directory contributes its own recursive total (0 when
listing it raises, since the recursive call swallows the error). -/
def dirEntryContrib : FSEntry → Nat
  | .file _ sz _ ok => if ok then sz else 0
  | .dir n ok cs =>
    if n ∈ cloudDenylist then 0 else if ok then dirListContrib cs else 0
  | .symlinkFile _ _ _ _ => 0
  | .symlinkDir _ => 0
  | .symlinkBroken _ => 0
/-- Sum of the contributions of a directory listing, in order. -/
def dirListContrib : FSList → Nat
  | .nil => 0
  | .cons e es => dirEntryContrib e + dirListContrib es
end

/-- `DirectoryAnalyzer.get_directory_size` called on a directory path:
iterate the children and sum their contributions; a `PermissionError` or
`FileNotFoundError` from `iterdir` is swallowed and yields total 0.  The
function never consults the denylist for the path it is called on, only
for child directories. -/
def get_directory_size : FSEntry → Nat
  | .dir _ ok cs => if ok then dirListContrib cs else 0
  | _ => 0

/-- One row of the subdirectory breakdown built by
`analyze_subdirectories`. -/
structure SubdirInfo where
  name : String
  path : String
  size_bytes : Nat
  size_human : String
deriving DecidableEq, Repr

/-- The rows `analyze_subdirectories` appends while iterating the direct
children in enumeration order, before sorting: symlinks and non-directory
entries produce no row, a denylisted directory produces the skipped
marker row with size 0, any other directory produces its recursive
total. -/
def childSubdirs (rootPath : String) : FSList → List SubdirInfo
  | .nil => []
  | .cons e es =>
    (match e with
     | .dir n ok cs =>
       if n ∈ cloudDenylist then
         [{ name := n ++ " (cloud/skipped)", path := joinPath rootPath n,
            size_bytes := 0, size_human := "0 B (Cloud Storage)" }]
       else
         [{ name := n, path := joinPath rootPath n,
            size_bytes := get_directory_size (.dir n ok cs),
            size_human := human_readable_size (get_directory_size (.dir n ok cs)) }]
     | _ => []) ++ childSubdirs rootPath es

/-- The comparison `analyze_subdirectories` sorts by:
`key=size_bytes, reverse=True`, read as a relation. -/
def subdirGE (a b : SubdirInfo) : Prop := b.size_bytes ≤ a.size_bytes

instance instSubdirGEDecidable : DecidableRel subdirGE := fun a b =>
  inferInstanceAs (Decidable (b.size_bytes ≤ a.size_bytes))

instance instSubdirGETotal : IsTotal SubdirInfo subdirGE :=
  ⟨fun a b => Nat.le_total b.size_bytes a.size_bytes⟩

instance instSubdirGETrans : IsTrans SubdirInfo subdirGE :=
  ⟨fun _ _ _ hab hbc => Nat.le_trans hbc hab⟩

/-- Python `list.sort(key=..., reverse=True)` is the stable descending
sort; a stable sort is determined by the comparison, so it is embedded
as the stable insertion sort with the descending relation. -/
def sortBySizeDesc (l : List SubdirInfo) : List SubdirInfo :=
  l.insertionSort subdirGE

/-- Errors the analyzer can raise: the two root-validation
`ValueError`s, the re-raised root `PermissionError`, and the
`NotADirectoryError` that `iterdir` raises on a file root (uncaught by
the handlers, which only catch `PermissionError` and
`FileNotFoundError`). -/
inductive AnalyzerError where
  | valueError (msg : String)
  | permissionError (msg : String)
  | notADirectoryError (msg : String)
deriving DecidableEq, Repr

/-- `DirectoryAnalyzer.analyze_subdirectories` (at the default
`max_depth=1`): validate the root, iterate its direct children building
the breakdown rows, re-raise a root `PermissionError`, and return the
rows sorted by size descending. -/
def analyze_subdirectories (rootPath : String) (root : RootFS) :
    Except AnalyzerError (List SubdirInfo) :=
  match root with
  | .missing => .error (.valueError ("Directory does not exist: " ++ rootPath))
  | .notDir => .error (.valueError ("Path is not a directory: " ++ rootPath))
  | .dir false _ => .error (.permissionError ("Permission denied accessing: " ++ rootPath))
  | .dir true cs => .ok (sortBySizeDesc (childSubdirs rootPath cs))

/-- The summary dictionary of `DirectoryAnalyzer.get_summary`. -/
structure DirSummary where
  directory : String
  total_size_bytes : Nat
  total_size_human : String
  subdirectory_count : Nat
  subdirectories : List SubdirInfo
deriving DecidableEq, Repr

/-- `DirectoryAnalyzer.get_summary`: total via `get_directory_size` on
the root (whose `iterdir` failure is swallowed to 0, but whose
`NotADirectoryError` on a file root is not caught), then the breakdown
via `analyze_subdirectories` (which re-raises a root permission error
and raises `ValueError` on a missing root). -/
def get_summary (rootPath : String) (root : RootFS) : Except AnalyzerError DirSummary :=
  match root with
  | .missing => .error (.valueError ("Directory does not exist: " ++ rootPath))
  | .notDir => .error (.notADirectoryError rootPath)
  | .dir false _ => .error (.permissionError ("Permission denied accessing: " ++ rootPath))
  | .dir true cs =>
    let total := dirListContrib cs
    let subdirs := sortBySizeDesc (childSubdirs rootPath cs)
    .ok { directory := rootPath
          total_size_bytes := total
          total_size_human := human_readable_size total
          subdirectory_count := subdirs.length
          subdirectories := subdirs }

/-! ### The delete endpoint (`app.py`, `delete_file`) -/

/-- The application state touched by `delete_file`: the physical
filesystem (existing paths with their sizes), the catalog of scan
records, the exact-duplicate groups, and the ledger. -/
structure AppState where
  fs : List (String × Nat)
  files : List FileInfo
  exact_duplicates : List (String × List FileInfo)
  stats : Stats
deriving DecidableEq, Repr

/-- `os.path.exists` / `os.path.getsize` over the modelled filesystem. -/
def lookupSize (fs : List (String × Nat)) (p : String) : Option Nat :=
  ((fs.find? (fun e => e.1 == p)).map (fun e => e.2))

/-- The three responses of the `delete_file` handler that the model
covers (the 400 missing-path response, the 404 response, and the 200
response carrying the updated snapshot). -/
inductive DeleteResult where
  | badRequest (msg : String)
  | notFound (msg : String)
  | okDeleted (msg : String) (stats : StatsSnapshot)
deriving DecidableEq, Repr

/-- `delete_file` from `app.py`: require a path, answer 404 when the
file does not exist, otherwise capture the size, remove the physical
file, record the deletion in the ledger, drop the record from the
catalog, rebuild the duplicate groups dropping any group left with
fewer than two records, and answer with the updated snapshot. -/
def delete_file (st : AppState) (fp : Option String) (now : String) :
    DeleteResult × AppState :=
  match fp with
  | none => (.badRequest "File path required", st)
  | some p =>
    match lookupSize st.fs p with
    | none => (.notFound "File not found", st)
    | some sz =>
      let fs2 := st.fs.filter (fun e => e.1 != p)
      let stats2 := record_deletion st.stats p sz now
      let files2 := st.files.filter (fun f => f.file_path != p)
      let dups2 := st.exact_duplicates.filterMap (fun g =>
        let upd := g.2.filter (fun f => f.file_path != p)
        if upd.length < 2 then none else some (g.1, upd))
      (.okDeleted ("File deleted: " ++ p) (get_stats stats2),
       { fs := fs2, files := files2, exact_duplicates := dups2, stats := stats2 })

/-! ### Claim-side specifications

These definitions follow the wording of the claims (not the code) and
are compared with the embedded code in refinement theorems. -/

mutual
/-- Claim C1 wording, per entry: the regular files reachable from a
directory via non-symlink directory edges, as (path, size) pairs;
symbolic links are never yielded and never followed. -/
def specRegEntry (base : String) : FSEntry → List (String × Nat)
  | .file n sz _ _ => [(joinPath base n, sz)]
  | .dir n _ cs => specRegList (joinPath base n) cs
  | .symlinkFile _ _ _ _ => []
  | .symlinkDir _ => []
  | .symlinkBroken _ => []
/-- Claim C1 wording over a directory listing. -/
def specRegList (base : String) : FSList → List (String × Nat)
  | .nil => []
  | .cons e es => specRegEntry base e ++ specRegList base es
end

mutual
/-- Amended claim C1, per entry: what the code actually yields — plain
regular files, plus symbolic links whose target resolves to a regular
file; symlinked directories are still never traversed. -/
def amendEntry (base : String) : FSEntry → List (String × Nat)
  | .file n sz _ _ => [(joinPath base n, sz)]
  | .dir n _ cs => amendList (joinPath base n) cs
  | .symlinkFile n sz _ _ => [(joinPath base n, sz)]
  | .symlinkDir _ => []
  | .symlinkBroken _ => []
/-- Amended claim C1 over a directory listing. -/
def amendList (base : String) : FSList → List (String × Nat)
  | .nil => []
  | .cons e es => amendEntry base e ++ amendList base es
end

/-- Amended claim C1, non-recursive mode: direct children that resolve
to regular files (plain files and file symlinks). -/
def directFilePairs (base : String) : FSList → List (String × Nat)
  | .nil => []
  | .cons e es =>
    (match e with
     | .file n sz _ _ => [(joinPath base n, sz)]
     | .symlinkFile n sz _ _ => [(joinPath base n, sz)]
     | _ => []) ++ directFilePairs base es

mutual
/-- Full accessibility of an entry: every `stat` of a regular file and
every directory listing in the subtree succeeds (the reading-error-free
situation the traversal claims quantify over). -/
def entryAllOk : FSEntry → Bool
  | .file _ _ _ ok => ok
  | .dir _ ok cs => ok && listAllOk cs
  | .symlinkFile _ _ _ ok => ok
  | .symlinkDir _ => true
  | .symlinkBroken _ => true
/-- Full accessibility of a directory listing. -/
def listAllOk : FSList → Bool
  | .nil => true
  | .cons e es => entryAllOk e && listAllOk es
end

mutual
/-- Claim C5 wording, per entry: the files reachable from a directory,
where symbolic links are not traversed, denylisted directories are not
traversed, and an unlistable directory hides its subtree; each
reachable file carries its path, size and whether its `stat`
succeeds. -/
def reachEntry (base : String) : FSEntry → List (String × Nat × Bool)
  | .file n sz _ ok => [(joinPath base n, sz, ok)]
  | .dir n ok cs =>
    if n ∈ cloudDenylist then [] else
      if ok then reachList (joinPath base n) cs else []
  | .symlinkFile _ _ _ _ => []
  | .symlinkDir _ => []
  | .symlinkBroken _ => []
/-- Claim C5 wording over a directory listing. -/
def reachList (base : String) : FSList → List (String × Nat × Bool)
  | .nil => []
  | .cons e es => reachEntry base e ++ reachList base es
end

/-- Claim C5 wording: a reachable file contributes its size, except that
a per-entry stat failure contributes 0. -/
def reachContribution (t : String × Nat × Bool) : Nat :=
  if t.2.2 then t.2.1 else 0

/-- Project a scan result onto the (path, size) pairs it yielded. -/
def pairsOf (l : List FileInfo) : List (String × Nat) :=
  l.map (fun f => (f.file_path, f.size_bytes))

/-! ### Concrete inputs for scenarios, counterexamples and witnesses -/

/-- A directory whose only entry is a symbolic link to a 5-byte regular
file. -/
def demoSymTree : FSList :=
  .cons (.symlinkFile "link" 5 (some "hi") true) .nil

/-- A small fully accessible tree: a file at the top, a subdirectory
with a file, and a symlink to a regular file. -/
def demoMixedTree : FSList :=
  .cons (.file "top.txt" 3 (some "abc") true)
    (.cons (.dir "sub" true (.cons (.file "inner.txt" 7 none true) .nil))
      (.cons (.symlinkFile "ln" 9 (some "zz") true) .nil))

/-- The C8 scenario: files A and B with content "x", C with content
"y". -/
def demoHashTree : FSList :=
  .cons (.file "A.txt" 1 (some "x") true)
    (.cons (.file "B.txt" 1 (some "x") true)
      (.cons (.file "C.txt" 1 (some "y") true) .nil))

/-- The record the scan produces for file A of the C8 scenario. -/
def demoRecA : FileInfo :=
  { file_path := "/d/A.txt", file_name := "A.txt", size_bytes := 1,
    sha256_hash := some (sha256model "x"), content_preview := "x" }

/-- The record the scan produces for file B of the C8 scenario. -/
def demoRecB : FileInfo :=
  { file_path := "/d/B.txt", file_name := "B.txt", size_bytes := 1,
    sha256_hash := some (sha256model "x"), content_preview := "x" }

/-- The record the scan produces for file C of the C8 scenario. -/
def demoRecC : FileInfo :=
  { file_path := "/d/C.txt", file_name := "C.txt", size_bytes := 1,
    sha256_hash := some (sha256model "y"), content_preview := "y" }

/-- The C7 scenario tree: docs holds 100 bytes, photos holds 300 bytes,
and the denylisted CloudStorage mount holds 500 bytes. -/
def demoSizeTree : FSList :=
  .cons (.dir "docs" true (.cons (.file "d.txt" 100 (some "d") true) .nil))
    (.cons (.dir "photos" true (.cons (.file "p.jpg" 300 none true) .nil))
      (.cons (.dir "CloudStorage" true (.cons (.file "c.bin" 500 none true) .nil)) .nil))

/-- The breakdown rows the C7 scenario must produce, in order. -/
def demoSizeRows : List SubdirInfo :=
  [{ name := "photos", path := "/r/photos", size_bytes := 300, size_human := "300.00 B" },
   { name := "docs", path := "/r/docs", size_bytes := 100, size_human := "100.00 B" },
   { name := "CloudStorage (cloud/skipped)", path := "/r/CloudStorage",
     size_bytes := 0, size_human := "0 B (Cloud Storage)" }]

/-- An application state holding one 2048-byte file that is catalogued
and sits in one duplicate group of two records. -/
def demoAppState : AppState :=
  { fs := [("/t/a.txt", 2048), ("/t/b.txt", 2048)]
    files :=
      [{ file_path := "/t/a.txt", file_name := "a.txt", size_bytes := 2048,
         sha256_hash := some "hq", content_preview := "q" },
       { file_path := "/t/b.txt", file_name := "b.txt", size_bytes := 2048,
         sha256_hash := some "hq", content_preview := "q" }]
    exact_duplicates :=
      [("hq",
        [{ file_path := "/t/a.txt", file_name := "a.txt", size_bytes := 2048,
           sha256_hash := some "hq", content_preview := "q" },
         { file_path := "/t/b.txt", file_name := "b.txt", size_bytes := 2048,
           sha256_hash := some "hq", content_preview := "q" }])]
    stats := default_stats "t0" }

/-! ### Helper lemmas -/

/-- `record_deletion` adds one file and `sz` bytes to the counters, no
matter what the history truncation does. -/
theorem record_deletion_counters (s : Stats) (fp : String) (sz : Nat) (now : String) :
    (record_deletion s fp sz now).total_files_deleted = s.total_files_deleted + 1 ∧
      (record_deletion s fp sz now).total_bytes_saved = s.total_bytes_saved + sz := by
  constructor <;> rfl

/-- Folding a batch of deletions adds the batch length and the batch
byte sum to the counters. -/
theorem apply_deletions_counters (ops : List (String × Nat × String)) :
    ∀ s : Stats,
      (apply_deletions s ops).total_files_deleted = s.total_files_deleted + ops.length ∧
        (apply_deletions s ops).total_bytes_saved =
          s.total_bytes_saved + (ops.map (fun op => op.2.1)).sum := by
  induction ops with
  | nil => intro s; simp [apply_deletions]
  | cons op ops ih =>
    intro s
    have h := ih (record_deletion s op.1 op.2.1 op.2.2)
    constructor
    · calc (apply_deletions s (op :: ops)).total_files_deleted
          = (record_deletion s op.1 op.2.1 op.2.2).total_files_deleted + ops.length := h.1
        _ = s.total_files_deleted + (op :: ops).length := by
            simp [record_deletion, List.length_cons]
            omega
    · calc (apply_deletions s (op :: ops)).total_bytes_saved
          = (record_deletion s op.1 op.2.1 op.2.2).total_bytes_saved +
              (ops.map (fun op => op.2.1)).sum := h.2
        _ = s.total_bytes_saved + ((op :: ops).map (fun op => op.2.1)).sum := by
            simp [record_deletion]
            omega

/-- Claim C2: starting from a zero-valued ledger, after any sequence of
N `record_deletion` calls with sizes s1..sN, `total_files_deleted`
equals N and `total_bytes_saved` equals s1+...+sN, independently of the
truncation of the history to its most recent 1000 entries. -/
theorem claim2_record_deletion_additive (ops : List (String × Nat × String)) (t0 : String) :
    (apply_deletions (default_stats t0) ops).total_files_deleted = ops.length ∧
      (apply_deletions (default_stats t0) ops).total_bytes_saved =
        (ops.map (fun op => op.2.1)).sum := by
  have h := apply_deletions_counters ops (default_stats t0)
  simpa [default_stats] using h

/-- Claim C3, counterexample: a backing store holding the JSON text
`[]` deserialises successfully, is not well-formed persisted ledger
state, and yet `load_stats` returns it unchanged instead of a fresh
zero-valued ledger. -/
theorem claim3_counterexample :
    load_stats (.parsed (.jarr [])) "t0" = .jarr [] ∧
      isWellFormedStats (.jarr []) = false ∧
      load_stats (.parsed (.jarr [])) "t0" ≠ statsToJson (default_stats "t0") := by
  refine ⟨rfl, rfl, ?_⟩
  intro h
  exact Json.noConfusion h

/-- Claim C3 as amended: `load_stats` is total, and whenever the stats
file is missing or reading/deserialising it raises, it returns the
fresh ledger whose counters are zero and whose history is empty;
content that deserialises successfully is returned as loaded, even when
it is not shaped like persisted ledger state. -/
theorem claim3_load_defaults (now : String) :
    load_stats .missing now = statsToJson (default_stats now) ∧
      load_stats .unreadable now = statsToJson (default_stats now) ∧
      (∀ j : Json, load_stats (.parsed j) now = j) ∧
      (default_stats now).total_files_deleted = 0 ∧
      (default_stats now).total_bytes_saved = 0 ∧
      (default_stats now).deletions = [] :=
  ⟨rfl, rfl, fun _ => rfl, rfl, rfl, rfl⟩

/-- Claim C10: `scan_directory` clears `files_info` before validating
the root, so when the root is absent or not a directory it raises and
leaves the catalog empty, whatever records the previous scan had
accumulated. -/
theorem claim10_scan_clears_before_validation (prev : List FileInfo) (rp : String)
    (rcv : Bool) :
    scan_directory prev rp .missing rcv =
        (.error (.valueError ("Directory does not exist: " ++ rp)), []) ∧
      scan_directory prev rp .notDir rcv =
        (.error (.valueError ("Path is not a directory: " ++ rp)), []) :=
  ⟨rfl, rfl⟩

/-- Claim C6: a permission failure listing the root makes `get_summary`
fail with the re-raised `PermissionError`, while `get_summary` on a
listable root always succeeds, and a stat-failing file child or an
unlistable directory child contributes zero without aborting the
aggregation of its siblings. -/
theorem claim6_root_fatal_entry_swallowed (rp : String) (cs : FSList) :
    get_summary rp (.dir false cs) =
        .error (.permissionError ("Permission denied accessing: " ++ rp)) ∧
      (∃ s, get_summary rp (.dir true cs) = .ok s) ∧
      (∀ (n : String) (sz : Nat) (c : Option String) (rest : FSList),
        dirListContrib (.cons (.file n sz c false) rest) = dirListContrib rest) ∧
      (∀ (n : String) (sub rest : FSList),
        dirListContrib (.cons (.dir n false sub) rest) = dirListContrib rest) := by
  refine ⟨rfl, ⟨_, rfl⟩, ?_, ?_⟩
  · intro n sz c rest
    simp [dirListContrib, dirEntryContrib]
  · intro n sub rest
    simp [dirListContrib, dirEntryContrib]

mutual
/-- The contribution of one entry inside `get_directory_size` equals the
sum of the claim-side contributions of the files reachable through that
entry. -/
theorem dirEntryContrib_eq_spec (base : String) (e : FSEntry) :
    dirEntryContrib e = ((reachEntry base e).map reachContribution).sum :=
  match e with
  | .file n sz c ok => by
    simp [dirEntryContrib, reachEntry, reachContribution]
  | .dir n ok cs => by
    by_cases hdl : n ∈ cloudDenylist
    · simp [dirEntryContrib, reachEntry, hdl]
    · cases ok with
      | false => simp [dirEntryContrib, reachEntry, hdl]
      | true =>
        simp only [dirEntryContrib, reachEntry, hdl, if_false, if_true, ite_false, ite_true]
        exact dirListContrib_eq_spec (joinPath base n) cs
  | .symlinkFile n sz c ok => by simp [dirEntryContrib, reachEntry]
  | .symlinkDir n => by simp [dirEntryContrib, reachEntry]
  | .symlinkBroken n => by simp [dirEntryContrib, reachEntry]
/-- The listing total inside `get_directory_size` equals the sum of the
claim-side contributions of the files reachable through the listing. -/
theorem dirListContrib_eq_spec (base : String) (l : FSList) :
    dirListContrib l = ((reachList base l).map reachContribution).sum :=
  match l with
  | .nil => by simp [dirListContrib, reachList]
  | .cons e es => by
    simp only [dirListContrib, reachList, List.map_append, List.sum_append]
    rw [dirEntryContrib_eq_spec base e, dirListContrib_eq_spec base es]
end

/-- Claim C5: for every directory, `get_directory_size` equals the sum
of the sizes of the files reachable from it — symbolic links are
skipped and not traversed, denylisted directories are not traversed,
and a per-entry stat or listing failure contributes 0 without aborting
the aggregation (an unlistable root likewise totals 0 over no reachable
files). -/
theorem claim5_directory_size_is_reachable_sum (name base : String) (ok : Bool)
    (cs : FSList) :
    get_directory_size (.dir name ok cs) =
      (((if ok then reachList base cs else []).map reachContribution)).sum := by
  cases ok with
  | false => simp [get_directory_size]
  | true =>
    simp only [get_directory_size, if_true, ite_true]
    exact dirListContrib_eq_spec base cs

/-- The stable descending sort leaves the relative order of the rows of
any fixed size unchanged: filtering to one size value commutes with the
sort. -/
theorem sortBySizeDesc_filter_stable (l : List SubdirInfo) (v : Nat) :
    (sortBySizeDesc l).filter (fun s => s.size_bytes == v) =
      l.filter (fun s => s.size_bytes == v) := by
  have hperm : ((sortBySizeDesc l).filter (fun s => s.size_bytes == v)).Perm
      (l.filter (fun s => s.size_bytes == v)) :=
    (List.perm_insertionSort subdirGE l).filter _
  have hpw : (l.filter (fun s => s.size_bytes == v)).Pairwise subdirGE := by
    apply List.pairwise_of_forall_mem_list
    intro a ha b hb
    have ha1 := @List.of_mem_filter SubdirInfo (fun s => s.size_bytes == v) a l ha
    have hb1 := @List.of_mem_filter SubdirInfo (fun s => s.size_bytes == v) b l hb
    have ha2 : a.size_bytes = v := by simpa using ha1
    have hb2 : b.size_bytes = v := by simpa using hb1
    simp [subdirGE, ha2, hb2]
  have hsub : (l.filter (fun s => s.size_bytes == v)).Sublist (sortBySizeDesc l) :=
    List.sublist_insertionSort hpw (List.filter_sublist l)
  have hself : (l.filter (fun s => s.size_bytes == v)).filter (fun s => s.size_bytes == v) =
      l.filter (fun s => s.size_bytes == v) :=
    List.filter_eq_self.mpr
      (fun a ha => @List.of_mem_filter SubdirInfo (fun s => s.size_bytes == v) a l ha)
  have hsub2 : (l.filter (fun s => s.size_bytes == v)).Sublist
      ((sortBySizeDesc l).filter (fun s => s.size_bytes == v)) := by
    have h2 := List.Sublist.filter (fun s => s.size_bytes == v) hsub
    rwa [hself] at h2
  exact (hsub2.eq_of_length hperm.length_eq.symm).symm

/-- A denylisted directory child always contributes its skipped marker
row to the unsorted breakdown. -/
theorem childSubdirs_denylisted_mem (rp n : String) (ok : Bool) (sub : FSList) :
    ∀ cs : FSList, FSEntry.dir n ok sub ∈ cs.toList → n ∈ cloudDenylist →
      ({ name := n ++ " (cloud/skipped)", path := joinPath rp n, size_bytes := 0,
         size_human := "0 B (Cloud Storage)" } : SubdirInfo) ∈ childSubdirs rp cs
  | .nil, h, _ => by simp [FSList.toList] at h
  | .cons e es, h, hdl => by
    rw [FSList.toList] at h
    rcases List.mem_cons.mp h with h1 | h2
    · subst h1
      simp [childSubdirs, hdl]
    · exact List.mem_append_right _ (childSubdirs_denylisted_mem rp n ok sub es h2 hdl)

/-- Evaluation of `qfloor` on a natural value. -/
theorem qfloor_natCast (m : Nat) : qfloor (m : ℚ) = (m : Int) := by
  simp [qfloor, Rat.num_natCast, Rat.den_natCast, Int.fdiv_one]

/-- Evaluation of `roundHalfEven` on a natural value: nothing to
round. -/
theorem roundHalfEven_natCast (m : Nat) : roundHalfEven (m : ℚ) = (m : Int) := by
  simp only [roundHalfEven, qfloor_natCast]
  norm_num

/-- Evaluation of `format2` on a natural value: the two decimals are
zero. -/
theorem format2_natCast (m : Nat) : format2 (m : ℚ) = toString m ++ ".00" := by
  simp only [format2]
  have h1 : (100 : ℚ) * (m : ℚ) = ((100 * m : ℕ) : ℚ) := by push_cast; ring
  rw [h1, roundHalfEven_natCast]
  have h2 : ((100 * m : ℕ) : ℤ).toNat = 100 * m := by omega
  rw [h2]
  have h3 : 100 * m / 100 = m := by omega
  have h4 : 100 * m % 100 = 0 := by omega
  rw [h3, h4]
  rw [if_pos (by norm_num : (0 : ℕ) < 10)]
  simp only [String.append_assoc]
  rfl

/-- A byte count below 1024 is rendered in the B unit with two zero
decimals. -/
theorem human_readable_size_small (n : Nat) (h : n < 1024) :
    human_readable_size n = toString n ++ ".00 B" := by
  have hq : (n : ℚ) < 1024 := by exact_mod_cast h
  simp only [human_readable_size, hrUnits, hrLoop, if_pos hq]
  rw [format2_natCast]
  simp only [String.append_assoc]
  rfl

/-- One division step of the formatting loop. -/
theorem hrLoop_step (v : ℚ) (u : String) (us : List String) (h : ¬ v < 1024) :
    hrLoop v (u :: us) = hrLoop (v / 1024) us := by
  simp only [hrLoop, if_neg h]

/-- Rendered sizes of the C7 scenario values. -/
theorem human100 : human_readable_size 100 = "100.00 B" :=
  (human_readable_size_small 100 (by norm_num)).trans rfl

/-- Rendered size of the photos subtree of the C7 scenario. -/
theorem human300 : human_readable_size 300 = "300.00 B" :=
  (human_readable_size_small 300 (by norm_num)).trans rfl

/-- Rendered size of the C7 scenario total. -/
theorem human400 : human_readable_size 400 = "400.00 B" :=
  (human_readable_size_small 400 (by norm_num)).trans rfl

/-- The enumeration-order breakdown rows of the C7 scenario. -/
theorem childSubdirs_demo : childSubdirs "/r" demoSizeTree =
    [{ name := "docs", path := "/r/docs", size_bytes := 100,
       size_human := "100.00 B" },
     { name := "photos", path := "/r/photos", size_bytes := 300,
       size_human := "300.00 B" },
     { name := "CloudStorage (cloud/skipped)", path := "/r/CloudStorage",
       size_bytes := 0, size_human := "0 B (Cloud Storage)" }] := by
  have h : childSubdirs "/r" demoSizeTree =
      [{ name := "docs", path := "/r/docs", size_bytes := 100,
         size_human := human_readable_size 100 },
       { name := "photos", path := "/r/photos", size_bytes := 300,
         size_human := human_readable_size 300 },
       { name := "CloudStorage (cloud/skipped)", path := "/r/CloudStorage",
         size_bytes := 0, size_human := "0 B (Cloud Storage)" }] := rfl
  rw [h, human100, human300]

/-- Claim C7: `analyze_subdirectories` returns the direct child
directories sorted by `size_bytes` descending, as a permutation of the
enumeration-order rows in which rows of equal size keep their
enumeration order (stable sort), with every denylisted child present as
a size-0 skipped-marker row; on the scenario tree (docs=100B,
photos=300B, denylisted CloudStorage=500B) the total is 400 and the
order is photos(300), docs(100), CloudStorage(0, skipped). -/
theorem claim7_analyze_sorted_stable (rp : String) (cs : FSList) (l : List SubdirInfo) :
    (analyze_subdirectories rp (.dir true cs) = .ok l →
      List.Pairwise (fun a b : SubdirInfo => b.size_bytes ≤ a.size_bytes) l ∧
        l.Perm (childSubdirs rp cs) ∧
        (∀ v : Nat, l.filter (fun s => s.size_bytes == v) =
          (childSubdirs rp cs).filter (fun s => s.size_bytes == v)) ∧
        (∀ (n : String) (ok : Bool) (sub : FSList),
          FSEntry.dir n ok sub ∈ cs.toList → n ∈ cloudDenylist →
            ({ name := n ++ " (cloud/skipped)", path := joinPath rp n, size_bytes := 0,
               size_human := "0 B (Cloud Storage)" } : SubdirInfo) ∈ l)) ∧
      analyze_subdirectories "/r" (.dir true demoSizeTree) = .ok demoSizeRows ∧
      get_summary "/r" (.dir true demoSizeTree) =
        .ok { directory := "/r", total_size_bytes := 400, total_size_human := "400.00 B",
              subdirectory_count := 3, subdirectories := demoSizeRows } := by
  refine ⟨?_, ?_, ?_⟩
  · intro h
    have hl : l = sortBySizeDesc (childSubdirs rp cs) := (Except.ok.inj h).symm
    subst hl
    refine ⟨List.sorted_insertionSort subdirGE (childSubdirs rp cs),
      List.perm_insertionSort subdirGE (childSubdirs rp cs),
      fun v => sortBySizeDesc_filter_stable (childSubdirs rp cs) v, ?_⟩
    intro n ok sub hmem hdl
    exact (List.perm_insertionSort subdirGE (childSubdirs rp cs)).mem_iff.mpr
      (childSubdirs_denylisted_mem rp n ok sub cs hmem hdl)
  · have h1 : analyze_subdirectories "/r" (.dir true demoSizeTree) =
        .ok (sortBySizeDesc (childSubdirs "/r" demoSizeTree)) := rfl
    rw [h1, childSubdirs_demo]
    rfl
  · have h1 : get_summary "/r" (.dir true demoSizeTree) =
        .ok { directory := "/r", total_size_bytes := 400,
              total_size_human := human_readable_size 400, subdirectory_count := 3,
              subdirectories := sortBySizeDesc (childSubdirs "/r" demoSizeTree) } := rfl
    rw [h1, childSubdirs_demo, human400]
    rfl

/-- Witness for claim C7: on the scenario tree the hypotheses hold and
the returned breakdown is indeed sorted descending by size. -/
theorem claim7_witness :
    analyze_subdirectories "/r" (.dir true demoSizeTree) = .ok demoSizeRows ∧
      List.Pairwise (fun a b : SubdirInfo => b.size_bytes ≤ a.size_bytes) demoSizeRows := by
  have h := (claim7_analyze_sorted_stable "/r" demoSizeTree demoSizeRows).2.1
  exact ⟨h, ((claim7_analyze_sorted_stable "/r" demoSizeTree demoSizeRows).1 h).1⟩

/-- Lookup in a group list headed by one keyed entry. -/
theorem groupVal_cons (k : String) (rs : List FileInfo)
    (gs : List (String × List FileInfo)) (h2 : String) :
    groupVal ((k, rs) :: gs) h2 = if k = h2 then rs else groupVal gs h2 := by
  by_cases hk : k = h2
  · subst hk
    unfold groupVal
    rw [List.find?_cons_of_pos gs (by simp : (fun g => g.1 == k) (k, rs) = true)]
    simp
  · unfold groupVal
    rw [List.find?_cons_of_neg gs
      (by simp [hk] : ¬ (fun g => g.1 == h2) (k, rs) = true)]
    simp [hk]

/-- Effect of `addToGroups` on lookups: the target key gains the record
at the end of its list, every other key is untouched. -/
theorem groupVal_addToGroups (gs : List (String × List FileInfo)) (h : String)
    (r : FileInfo) (h2 : String) :
    groupVal (addToGroups gs h r) h2 =
      if h2 = h then groupVal gs h2 ++ [r] else groupVal gs h2 := by
  induction gs with
  | nil =>
    by_cases he : h2 = h
    · subst he
      simp [addToGroups, groupVal_cons, groupVal]
    · have he2 : ¬ h = h2 := fun hc => he hc.symm
      simp [addToGroups, groupVal_cons, groupVal, he, he2]
  | cons g gs ih =>
    obtain ⟨k, rs⟩ := g
    by_cases hk : k = h
    · subst hk
      by_cases he : h2 = k
      · subst he
        simp [addToGroups, groupVal_cons]
      · have he2 : ¬ k = h2 := fun hc => he hc.symm
        simp [addToGroups, groupVal_cons, he, he2]
    · by_cases he : h2 = k
      · subst he
        have hk2 : ¬ h2 = h := hk
        simp [addToGroups, groupVal_cons, hk, hk2]
      · have he2 : ¬ k = h2 := fun hc => he hc.symm
        simp [addToGroups, groupVal_cons, hk, he2, ih]

/-- Keys of `addToGroups`: an existing key leaves the key list alone, a
new key is appended. -/
theorem keys_addToGroups (gs : List (String × List FileInfo)) (h : String) (r : FileInfo) :
    (addToGroups gs h r).map Prod.fst =
      if h ∈ gs.map Prod.fst then gs.map Prod.fst else gs.map Prod.fst ++ [h] := by
  induction gs with
  | nil => simp [addToGroups]
  | cons g gs ih =>
    obtain ⟨k, rs⟩ := g
    by_cases hk : k = h
    · subst hk
      simp [addToGroups]
    · have hk2 : ¬ h = k := fun hc => hk hc.symm
      by_cases hmem : h ∈ gs.map Prod.fst
      · simp [addToGroups, hk, hk2, hmem, ih]
      · simp [addToGroups, hk, hk2, hmem, ih]

/-- `addToGroups` preserves distinctness of the keys. -/
theorem keysNodup_addToGroups (gs : List (String × List FileInfo)) (h : String)
    (r : FileInfo) (hnd : (gs.map Prod.fst).Nodup) :
    ((addToGroups gs h r).map Prod.fst).Nodup := by
  rw [keys_addToGroups]
  by_cases hmem : h ∈ gs.map Prod.fst
  · simpa [hmem] using hnd
  · have hdisj : (gs.map Prod.fst).Disjoint [h] := by
      intro a ha hb
      rw [List.mem_singleton] at hb
      subst hb
      exact hmem ha
    simp only [hmem, if_false, ite_false]
    exact hnd.append (List.nodup_singleton h) hdisj

/-- In a group list with distinct keys, membership determines the
lookup. -/
theorem groupVal_of_mem (h : String) (rs : List FileInfo) :
    ∀ gs : List (String × List FileInfo), (gs.map Prod.fst).Nodup →
      (h, rs) ∈ gs → groupVal gs h = rs := by
  intro gs
  induction gs with
  | nil => intro _ hm; simp at hm
  | cons g gs ih =>
    intro hnd hm
    obtain ⟨k, rs0⟩ := g
    rcases List.mem_cons.mp hm with h1 | h2
    · injection h1 with hk hr
      subst hk
      subst hr
      simp [groupVal_cons]
    · have hnd2 := hnd
      rw [List.map_cons, List.nodup_cons] at hnd2
      have hkh : ¬ k = h := by
        intro hc
        subst hc
        have hmm : (k, rs).1 ∈ gs.map Prod.fst := List.mem_map_of_mem Prod.fst h2
        exact hnd2.1 hmm
      rw [groupVal_cons, if_neg hkh]
      exact ih hnd2.2 h2

/-- The accumulation loop of `group_by_hash`, started from any group
list: for a non-empty key, the final lookup is the initial lookup
followed by exactly the records carrying that fingerprint, in catalog
order. -/
theorem buildAux_groupVal (files : List FileInfo) :
    ∀ (gs : List (String × List FileInfo)) (h : String), h ≠ "" →
      groupVal (List.foldl
          (fun gs r =>
            match r.sha256_hash with
            | none => gs
            | some hv => if hv = "" then gs else addToGroups gs hv r)
          gs files) h =
        groupVal gs h ++ files.filter (fun r => r.sha256_hash == some h) := by
  induction files with
  | nil => intro gs h hne; simp
  | cons r files ih =>
    intro gs h hne
    rw [List.foldl_cons, List.filter_cons]
    cases hr : r.sha256_hash with
    | none =>
      simp only [hr]
      rw [ih gs h hne]
      simp [hr]
    | some hv =>
      by_cases hv0 : hv = ""
      · subst hv0
        simp only [hr, if_true]
        rw [ih gs h hne]
        have hne2 : ¬ ("" : String) = h := fun hc2 => hne hc2.symm
        have hc : (r.sha256_hash == some h) = false := by
          rw [hr]
          simp [hne2]
        simp [hc, hne2]
      · simp only [hr, if_neg hv0]
        rw [ih (addToGroups gs hv r) h hne, groupVal_addToGroups]
        by_cases hvh : h = hv
        · subst hvh
          have hc : (r.sha256_hash == some h) = true := by simp [hr]
          simp [hc, List.append_assoc]
        · have hvh2 : ¬ hv = h := fun hc => hvh hc.symm
          have hc : (r.sha256_hash == some h) = false := by simp [hr, hvh2]
          simp [hc, hvh, hvh2]

/-- The accumulation loop keeps the group keys distinct. -/
theorem buildAux_keysNodup (files : List FileInfo) :
    ∀ gs : List (String × List FileInfo), (gs.map Prod.fst).Nodup →
      ((List.foldl
          (fun gs r =>
            match r.sha256_hash with
            | none => gs
            | some hv => if hv = "" then gs else addToGroups gs hv r)
          gs files).map Prod.fst).Nodup := by
  induction files with
  | nil => intro gs hnd; simpa using hnd
  | cons r files ih =>
    intro gs hnd
    rw [List.foldl_cons]
    cases hr : r.sha256_hash with
    | none => simp only [hr]; exact ih gs hnd
    | some hv =>
      by_cases hv0 : hv = ""
      · simp only [hr, hv0, if_pos rfl]
        exact ih gs hnd
      · simp only [hr, if_neg hv0]
        exact ih (addToGroups gs hv r) (keysNodup_addToGroups gs hv r hnd)

/-- The accumulation loop never creates an empty-string key. -/
theorem buildAux_keysNe (files : List FileInfo) :
    ∀ gs : List (String × List FileInfo), (∀ k ∈ gs.map Prod.fst, k ≠ "") →
      ∀ k ∈ (List.foldl
          (fun gs r =>
            match r.sha256_hash with
            | none => gs
            | some hv => if hv = "" then gs else addToGroups gs hv r)
          gs files).map Prod.fst, k ≠ "" := by
  induction files with
  | nil => intro gs hgood; simpa using hgood
  | cons r files ih =>
    intro gs hgood
    rw [List.foldl_cons]
    cases hr : r.sha256_hash with
    | none => simp only [hr]; exact ih gs hgood
    | some hv =>
      by_cases hv0 : hv = ""
      · simp only [hr, hv0, if_pos rfl]
        exact ih gs hgood
      · simp only [hr, if_neg hv0]
        refine ih (addToGroups gs hv r) ?_
        intro k hk
        rw [keys_addToGroups] at hk
        by_cases hmem : hv ∈ gs.map Prod.fst
        · rw [if_pos hmem] at hk
          exact hgood k hk
        · rw [if_neg hmem] at hk
          rcases List.mem_append.mp hk with hk1 | hk2
          · exact hgood k hk1
          · rw [List.mem_singleton] at hk2
            subst hk2
            exact hv0

/-- Claim C8: `group_by_hash` returns only fingerprints carried by two
or more records, each group holding exactly the records with that
fingerprint in discovery order; records without a fingerprint are in no
group.  On the scenario catalog scanned from files A="x", B="x", C="y"
there is exactly one group, {A, B}, and C is in no group. -/
theorem claim8_group_by_hash :
    (∀ (files : List FileInfo) (h : String) (rs : List FileInfo),
      (h, rs) ∈ group_by_hash files →
        2 ≤ rs.length ∧
          rs = files.filter (fun r => r.sha256_hash == some h) ∧
          ∀ r ∈ rs, r.sha256_hash = some h) ∧
      group_by_hash (scan_directory [] "/d" (.dir true demoHashTree) false).2 =
        [(sha256model "x", [demoRecA, demoRecB])] ∧
      (∀ g ∈ group_by_hash (scan_directory [] "/d" (.dir true demoHashTree) false).2,
        demoRecC ∉ g.2) := by
  refine ⟨?_, rfl, by decide⟩
  intro files h rs hmem
  have hmf := List.mem_filter.mp hmem
  have hlen : 1 < rs.length := by simpa using hmf.2
  have hbg : (h, rs) ∈ buildGroups files := hmf.1
  have hfold : buildGroups files =
      List.foldl
        (fun gs r =>
          match r.sha256_hash with
          | none => gs
          | some hv => if hv = "" then gs else addToGroups gs hv r)
        [] files := rfl
  have hnd : ((buildGroups files).map Prod.fst).Nodup := by
    rw [hfold]
    exact buildAux_keysNodup files [] (by simp)
  have hkeyne : h ≠ "" := by
    have hkmem : (h, rs).1 ∈ (buildGroups files).map Prod.fst :=
      List.mem_map_of_mem Prod.fst hbg
    rw [hfold] at hkmem
    exact buildAux_keysNe files [] (by simp) h hkmem
  have hlook : groupVal (buildGroups files) h = rs :=
    groupVal_of_mem h rs (buildGroups files) hnd hbg
  have hchar : groupVal (buildGroups files) h =
      groupVal [] h ++ files.filter (fun r => r.sha256_hash == some h) := by
    rw [hfold]
    exact buildAux_groupVal files [] h hkeyne
  have hnil : groupVal ([] : List (String × List FileInfo)) h = [] := rfl
  rw [hnil, List.nil_append] at hchar
  have hrs : rs = files.filter (fun r => r.sha256_hash == some h) := by
    rw [← hlook, hchar]
  refine ⟨hlen, hrs, ?_⟩
  intro r hr
  rw [hrs] at hr
  have hbeq := @List.of_mem_filter FileInfo
    (fun r => r.sha256_hash == some h) r files hr
  exact eq_of_beq hbeq

/-- Witness for claim C8: the scenario group {A, B} is a member of the
output, and the theorem yields its cardinality and characterisation. -/
theorem claim8_witness :
    (sha256model "x", [demoRecA, demoRecB]) ∈
        group_by_hash (scan_directory [] "/d" (.dir true demoHashTree) false).2 ∧
      2 ≤ [demoRecA, demoRecB].length ∧
      [demoRecA, demoRecB] =
        (scan_directory [] "/d" (.dir true demoHashTree) false).2.filter
          (fun r => r.sha256_hash == some (sha256model "x")) := by
  have hmem : (sha256model "x", [demoRecA, demoRecB]) ∈
      group_by_hash (scan_directory [] "/d" (.dir true demoHashTree) false).2 := by
    decide
  exact ⟨hmem, (claim8_group_by_hash.1 _ _ _ hmem).1,
    (claim8_group_by_hash.1 _ _ _ hmem).2.1⟩

/-- After the physical removal, the path no longer exists. -/
theorem lookupSize_filter_self (fs : List (String × Nat)) (p : String) :
    lookupSize (fs.filter (fun e => e.1 != p)) p = none := by
  unfold lookupSize
  rw [List.find?_eq_none.mpr]
  · rfl
  · intro e he
    have hb := @List.of_mem_filter (String × Nat) (fun e => e.1 != p) e fs he
    rw [bne_iff_ne] at hb
    simp [hb]

/-- Reduction of `delete_file` on a missing path: the 404 branch with
the state untouched. -/
theorem delete_file_notFound (st : AppState) (p : String) (now : String)
    (h : lookupSize st.fs p = none) :
    delete_file st (some p) now = (.notFound "File not found", st) := by
  simp only [delete_file, h]

/-- Reduction of `delete_file` on an existing path. -/
theorem delete_file_found (st : AppState) (p : String) (sz : Nat) (now : String)
    (h : lookupSize st.fs p = some sz) :
    delete_file st (some p) now =
      (.okDeleted ("File deleted: " ++ p) (get_stats (record_deletion st.stats p sz now)),
       { fs := st.fs.filter (fun e => e.1 != p)
         files := st.files.filter (fun f => f.file_path != p)
         exact_duplicates := st.exact_duplicates.filterMap (fun g =>
           let upd := g.2.filter (fun f => f.file_path != p)
           if upd.length < 2 then none else some (g.1, upd))
         stats := record_deletion st.stats p sz now }) := by
  simp only [delete_file, h]

/-- Claim C4: deleting an existing file succeeds, removes every record
with that path from the catalog and from every duplicate group, and
adds exactly the size of the file (and one file) to the ledger; repeating
the delete answers the 404 not-found error and leaves the whole state,
catalog and ledger included, unchanged. -/
theorem claim4_delete_then_redelete (st : AppState) (p : String) (sz : Nat)
    (n1 n2 : String) (hex : lookupSize st.fs p = some sz) :
    (delete_file st (some p) n1).1 =
        .okDeleted ("File deleted: " ++ p)
          (get_stats (delete_file st (some p) n1).2.stats) ∧
      (delete_file st (some p) n1).2.stats.total_files_deleted =
        st.stats.total_files_deleted + 1 ∧
      (delete_file st (some p) n1).2.stats.total_bytes_saved =
        st.stats.total_bytes_saved + sz ∧
      (∀ f ∈ (delete_file st (some p) n1).2.files, f.file_path ≠ p) ∧
      (∀ g ∈ (delete_file st (some p) n1).2.exact_duplicates, ∀ f ∈ g.2, f.file_path ≠ p) ∧
      (delete_file (delete_file st (some p) n1).2 (some p) n2).1 =
        .notFound "File not found" ∧
      (delete_file (delete_file st (some p) n1).2 (some p) n2).2 =
        (delete_file st (some p) n1).2 := by
  have h1 := delete_file_found st p sz n1 hex
  have hgone : lookupSize (delete_file st (some p) n1).2.fs p = none := by
    rw [h1]
    exact lookupSize_filter_self st.fs p
  have h2 := delete_file_notFound (delete_file st (some p) n1).2 p n2 hgone
  refine ⟨?_, ?_, ?_, ?_, ?_, ?_, ?_⟩
  · rw [h1]
  · rw [h1]
    rfl
  · rw [h1]
    rfl
  · intro f hf
    rw [h1] at hf
    have hb := @List.of_mem_filter FileInfo (fun f => f.file_path != p) f st.files hf
    rwa [bne_iff_ne] at hb
  · intro g hg f hf
    rw [h1] at hg
    obtain ⟨g0, hg0, hgeq⟩ := List.mem_filterMap.mp hg
    by_cases hlt : (g0.2.filter (fun f => f.file_path != p)).length < 2
    · rw [if_pos hlt] at hgeq
      exact absurd hgeq (by simp)
    · rw [if_neg hlt] at hgeq
      obtain rfl := Option.some.inj hgeq
      have hb := @List.of_mem_filter FileInfo (fun f => f.file_path != p) f g0.2 hf
      rwa [bne_iff_ne] at hb
  · rw [h2]
  · rw [h2]

/-- Witness for claim C4 on the concrete application state holding a
2048-byte file: the first delete adds 2048 bytes to the ledger and the
second answers 404. -/
theorem claim4_witness :
    lookupSize demoAppState.fs "/t/a.txt" = some 2048 ∧
      (delete_file demoAppState (some "/t/a.txt") "t1").2.stats.total_bytes_saved =
        demoAppState.stats.total_bytes_saved + 2048 ∧
      (delete_file (delete_file demoAppState (some "/t/a.txt") "t1").2
          (some "/t/a.txt") "t2").1 = .notFound "File not found" := by
  have hex : lookupSize demoAppState.fs "/t/a.txt" = some 2048 := by rfl
  have h := claim4_delete_then_redelete demoAppState "/t/a.txt" 2048 "t1" "t2" hex
  exact ⟨hex, h.2.2.1, h.2.2.2.2.2.1⟩

mutual
/-- On a fully accessible entry, the recursive scan pipeline (rglob,
`is_file` filter, metadata extraction) yields exactly the pairs of the
amended claim: plain regular files plus symlinks resolving to regular
files, with symlinked directories never traversed. -/
theorem scanEntry_pairs (base : String) (e : FSEntry) (h : entryAllOk e = true) :
    pairsOf (((rglobEntry base e).filter (fun pe => isFileEntry pe.2)).filterMap
      (fun pe => get_file_metadata pe.1 pe.2)) = amendEntry base e :=
  match e with
  | .file n sz c ok => by
    have hok : ok = true := by simpa [entryAllOk] using h
    subst hok
    simp [rglobEntry, isFileEntry, get_file_metadata, pairsOf, amendEntry]
  | .dir n ok cs => by
    have hspl := by simpa [entryAllOk, Bool.and_eq_true] using h
    obtain ⟨hok, hcs⟩ : ok = true ∧ listAllOk cs = true := hspl
    subst hok
    have hrec := scanList_pairs (joinPath base n) cs hcs
    simp only [rglobEntry, if_true, ite_true, List.filter_cons, isFileEntry]
    simpa [amendEntry] using hrec
  | .symlinkFile n sz c ok => by
    have hok : ok = true := by simpa [entryAllOk] using h
    subst hok
    simp [rglobEntry, isFileEntry, get_file_metadata, pairsOf, amendEntry]
  | .symlinkDir n => by
    simp [rglobEntry, isFileEntry, pairsOf, amendEntry]
  | .symlinkBroken n => by
    simp [rglobEntry, isFileEntry, pairsOf, amendEntry]
/-- The same, over a fully accessible directory listing. -/
theorem scanList_pairs (base : String) (l : FSList) (h : listAllOk l = true) :
    pairsOf (((rglobList base l).filter (fun pe => isFileEntry pe.2)).filterMap
      (fun pe => get_file_metadata pe.1 pe.2)) = amendList base l :=
  match l with
  | .nil => by simp [rglobList, pairsOf, amendList]
  | .cons e es => by
    have hspl := by simpa [listAllOk, Bool.and_eq_true] using h
    obtain ⟨he, hes⟩ : entryAllOk e = true ∧ listAllOk es = true := hspl
    have h1 := scanEntry_pairs base e he
    have h2 := scanList_pairs base es hes
    simp only [rglobList, List.filter_append, List.filterMap_append, pairsOf,
      List.map_append, amendList]
    rw [← pairsOf, ← pairsOf, h1, h2]
end

/-- On a fully accessible listing, the non-recursive scan pipeline
(iterdir, `is_file` filter, metadata extraction) yields exactly the
direct children that resolve to regular files. -/
theorem scanDirect_pairs (base : String) :
    ∀ l : FSList, listAllOk l = true →
      pairsOf (((iterdirList base l).filter (fun pe => isFileEntry pe.2)).filterMap
        (fun pe => get_file_metadata pe.1 pe.2)) = directFilePairs base l
  | .nil, _ => by simp [iterdirList, pairsOf, directFilePairs]
  | .cons e es, h => by
    have hspl := by simpa [listAllOk, Bool.and_eq_true] using h
    obtain ⟨he, hes⟩ : entryAllOk e = true ∧ listAllOk es = true := hspl
    have h2 := scanDirect_pairs base es hes
    match e with
    | .file n sz c ok =>
      have hok : ok = true := by simpa [entryAllOk] using he
      subst hok
      simp only [iterdirList, List.filter_cons, isFileEntry, FSEntry.name, if_true,
        ite_true, List.filterMap_cons, get_file_metadata, directFilePairs]
      simpa [pairsOf] using h2
    | .symlinkFile n sz c ok =>
      have hok : ok = true := by simpa [entryAllOk] using he
      subst hok
      simp only [iterdirList, List.filter_cons, isFileEntry, FSEntry.name, if_true,
        ite_true, List.filterMap_cons, get_file_metadata, directFilePairs]
      simpa [pairsOf] using h2
    | .dir n ok cs =>
      simp only [iterdirList, List.filter_cons, isFileEntry, FSEntry.name,
        if_false, ite_false, directFilePairs]
      simpa using h2
    | .symlinkDir n =>
      simp only [iterdirList, List.filter_cons, isFileEntry, FSEntry.name,
        if_false, ite_false, directFilePairs]
      simpa using h2
    | .symlinkBroken n =>
      simp only [iterdirList, List.filter_cons, isFileEntry, FSEntry.name,
        if_false, ite_false, directFilePairs]
      simpa using h2

/-- Claim C1, counterexample: a root whose only entry is a symbolic
link to a 5-byte regular file.  The claim requires the scan to yield
exactly the regular files reachable via non-symlink edges — here none —
but the code yields one record for the symlink, because `Path.is_file`
follows symlinks. -/
theorem claim1_counterexample :
    pairsOf (scan_directory [] "/r" (.dir true demoSymTree) true).2 = [("/r/link", 5)] ∧
      specRegList "/r" demoSymTree = [] ∧
      ¬ (pairsOf (scan_directory [] "/r" (.dir true demoSymTree) true).2).Perm
          (specRegList "/r" demoSymTree) := by
  refine ⟨rfl, rfl, ?_⟩
  intro hperm
  have h1 : (pairsOf (scan_directory [] "/r" (.dir true demoSymTree) true).2).length = 1 :=
    rfl
  have h2 : (specRegList "/r" demoSymTree).length = 0 := rfl
  have := hperm.length_eq
  omega

/-- Claim C1 as amended: on a fully accessible tree, the recursive scan
yields exactly the entries resolving to regular files — the plain
regular files reachable via non-symlink directory edges plus the
symlink entries whose target is a regular file — and never traverses a
symlinked directory; the non-recursive scan yields exactly the direct
children resolving to regular files. -/
theorem claim1_scan_yields_resolved_files (prev : List FileInfo) (rp : String)
    (cs : FSList) (h : listAllOk cs = true) :
    (pairsOf (scan_directory prev rp (.dir true cs) true).2).Perm (amendList rp cs) ∧
      (pairsOf (scan_directory prev rp (.dir true cs) false).2).Perm
        (directFilePairs rp cs) := by
  constructor
  · have he : pairsOf (scan_directory prev rp (.dir true cs) true).2 = amendList rp cs :=
      scanList_pairs rp cs h
    rw [he]
  · have he : pairsOf (scan_directory prev rp (.dir true cs) false).2 =
        directFilePairs rp cs :=
      scanDirect_pairs rp cs h
    rw [he]

/-- Witness for claim C1 on a small fully accessible tree holding a
top-level file, a nested file and a file symlink. -/
theorem claim1_witness :
    listAllOk demoMixedTree = true ∧
      (pairsOf (scan_directory [] "/r" (.dir true demoMixedTree) true).2).Perm
        (amendList "/r" demoMixedTree) := by
  have hok : listAllOk demoMixedTree = true := rfl
  exact ⟨hok, (claim1_scan_yields_resolved_files [] "/r" demoMixedTree hok).1⟩

/-- Claim C9 as amended: for every byte count below `2^53` (the range
in which the float arithmetic the code performs is exact), the rendered
string scales the value into the largest unit among B, KB, MB, GB, TB,
PB keeping the scaled value below 1024 — the least number of divisions
by 1024 reaching a value below 1024 — with two decimal places; for
larger counts the PB fallback can render values of 1024 or more. -/
theorem claim9_amended (n : Nat) (hn : n < 2 ^ 53) :
    human_readable_size n =
        format2 ((n : ℚ) / 1024 ^ hrSpecIdx n) ++ " " ++ hrUnitName (hrSpecIdx n) ∧
      (n : ℚ) / 1024 ^ hrSpecIdx n < 1024 ∧
      ∀ j, j < hrSpecIdx n → ¬ (n : ℚ) / 1024 ^ j < 1024 := by
  have key : ∀ j : ℕ, ((n : ℚ) / 1024 ^ j < 1024 ↔ n < 1024 ^ (j + 1)) := by
    intro j
    rw [div_lt_iff₀ (by positivity)]
    rw [show (1024 : ℚ) * 1024 ^ j = ((1024 ^ (j + 1) : ℕ) : ℚ) by push_cast; ring]
    exact Nat.cast_lt
  have e1 : (n : ℚ) / 1024 = (n : ℚ) / 1024 ^ 1 := by norm_num
  have e2 : (n : ℚ) / 1024 ^ 1 / 1024 = (n : ℚ) / 1024 ^ 2 := by rw [div_div]; norm_num
  have e3 : (n : ℚ) / 1024 ^ 2 / 1024 = (n : ℚ) / 1024 ^ 3 := by rw [div_div]; norm_num
  have e4 : (n : ℚ) / 1024 ^ 3 / 1024 = (n : ℚ) / 1024 ^ 4 := by rw [div_div]; norm_num
  have e5 : (n : ℚ) / 1024 ^ 4 / 1024 = (n : ℚ) / 1024 ^ 5 := by rw [div_div]; norm_num
  by_cases h0 : n < 1024
  · have hidx : hrSpecIdx n = 0 := by simp [hrSpecIdx, h0]
    have hq : (n : ℚ) < 1024 := by exact_mod_cast h0
    refine ⟨?_, ?_, ?_⟩
    · rw [hidx]
      simp only [human_readable_size, hrUnits, hrLoop, if_pos hq]
      rw [show hrUnitName 0 = "B" from rfl]
      norm_num
    · rw [hidx]
      simpa using hq
    · rw [hidx]
      intro j hj
      exact absurd hj (Nat.not_lt_zero j)
  · have hc0 : ¬ (n : ℚ) < 1024 := fun hq => h0 (by exact_mod_cast hq)
    by_cases h1 : n < 1024 ^ 2
    · have hidx : hrSpecIdx n = 1 := by unfold hrSpecIdx; rw [if_neg h0, if_pos h1]
      have hq : (n : ℚ) / 1024 ^ 1 < 1024 := (key 1).mpr (by simpa using h1)
      refine ⟨?_, ?_, ?_⟩
      · rw [hidx]
        simp only [human_readable_size, hrUnits]
        rw [hrLoop_step _ _ _ hc0, e1]
        simp only [hrLoop, if_pos hq]
        rfl
      · rw [hidx]
        exact hq
      · rw [hidx]
        intro j hj
        have hj0 : j = 0 := by omega
        subst hj0
        rw [key 0]
        simpa using h0
    · have hc1 : ¬ (n : ℚ) / 1024 ^ 1 < 1024 := by
        rw [key 1]
        simpa using h1
      by_cases h2 : n < 1024 ^ 3
      · have hidx : hrSpecIdx n = 2 := by unfold hrSpecIdx; rw [if_neg h0, if_neg h1, if_pos h2]
        have hq : (n : ℚ) / 1024 ^ 2 < 1024 := (key 2).mpr (by simpa using h2)
        refine ⟨?_, ?_, ?_⟩
        · rw [hidx]
          simp only [human_readable_size, hrUnits]
          rw [hrLoop_step _ _ _ hc0, e1, hrLoop_step _ _ _ hc1, e2]
          simp only [hrLoop, if_pos hq]
          rfl
        · rw [hidx]
          exact hq
        · rw [hidx]
          intro j hj
          interval_cases j
          · rw [key 0]
            simpa using h0
          · rw [key 1]
            simpa using h1
      · have hc2 : ¬ (n : ℚ) / 1024 ^ 2 < 1024 := by
          rw [key 2]
          simpa using h2
        by_cases h3 : n < 1024 ^ 4
        · have hidx : hrSpecIdx n = 3 := by unfold hrSpecIdx; rw [if_neg h0, if_neg h1, if_neg h2, if_pos h3]
          have hq : (n : ℚ) / 1024 ^ 3 < 1024 := (key 3).mpr (by simpa using h3)
          refine ⟨?_, ?_, ?_⟩
          · rw [hidx]
            simp only [human_readable_size, hrUnits]
            rw [hrLoop_step _ _ _ hc0, e1, hrLoop_step _ _ _ hc1, e2,
              hrLoop_step _ _ _ hc2, e3]
            simp only [hrLoop, if_pos hq]
            rfl
          · rw [hidx]
            exact hq
          · rw [hidx]
            intro j hj
            interval_cases j
            · rw [key 0]
              simpa using h0
            · rw [key 1]
              simpa using h1
            · rw [key 2]
              simpa using h2
        · have hc3 : ¬ (n : ℚ) / 1024 ^ 3 < 1024 := by
            rw [key 3]
            simpa using h3
          by_cases h4 : n < 1024 ^ 5
          · have hidx : hrSpecIdx n = 4 := by unfold hrSpecIdx; rw [if_neg h0, if_neg h1, if_neg h2, if_neg h3, if_pos h4]
            have hq : (n : ℚ) / 1024 ^ 4 < 1024 := (key 4).mpr (by simpa using h4)
            refine ⟨?_, ?_, ?_⟩
            · rw [hidx]
              simp only [human_readable_size, hrUnits]
              rw [hrLoop_step _ _ _ hc0, e1, hrLoop_step _ _ _ hc1, e2,
                hrLoop_step _ _ _ hc2, e3, hrLoop_step _ _ _ hc3, e4]
              simp only [hrLoop, if_pos hq]
              rfl
            · rw [hidx]
              exact hq
            · rw [hidx]
              intro j hj
              interval_cases j
              · rw [key 0]
                simpa using h0
              · rw [key 1]
                simpa using h1
              · rw [key 2]
                simpa using h2
              · rw [key 3]
                simpa using h3
          · have hc4 : ¬ (n : ℚ) / 1024 ^ 4 < 1024 := by
              rw [key 4]
              simpa using h4
            have h5 : n < 1024 ^ 6 := lt_of_lt_of_le hn (by norm_num)
            have hidx : hrSpecIdx n = 5 := by
              unfold hrSpecIdx
              rw [if_neg h0, if_neg h1, if_neg h2, if_neg h3, if_neg h4]
            have hq : (n : ℚ) / 1024 ^ 5 < 1024 := (key 5).mpr (by simpa using h5)
            refine ⟨?_, ?_, ?_⟩
            · rw [hidx]
              simp only [human_readable_size, hrUnits]
              rw [hrLoop_step _ _ _ hc0, e1, hrLoop_step _ _ _ hc1, e2,
                hrLoop_step _ _ _ hc2, e3, hrLoop_step _ _ _ hc3, e4,
                hrLoop_step _ _ _ hc4, e5]
              simp only [hrLoop]
              rw [String.append_assoc]
              rfl
            · rw [hidx]
              exact hq
            · rw [hidx]
              intro j hj
              interval_cases j
              · rw [key 0]
                simpa using h0
              · rw [key 1]
                simpa using h1
              · rw [key 2]
                simpa using h2
              · rw [key 3]
                simpa using h3
              · rw [key 4]
                simpa using h4

/-- Claim C9, counterexample: at `1024^6` bytes the loop has exhausted
every unit and prints "1024.00 PB", yet the PB-scaled value 1024 is not
below 1024 — no unit in {B..PB} keeps the scaled value below 1024, so
the rendering rule of the claim has no solution and the code prints a
value of 1024 with the largest unit instead. -/
theorem claim9_counterexample :
    human_readable_size (1024 ^ 6) = "1024.00 PB" ∧
      ¬ ((1024 ^ 6 : ℕ) : ℚ) / 1024 ^ 5 < 1024 := by
  constructor
  · have hcast : ((1024 ^ 6 : ℕ) : ℚ) = 1024 ^ 6 := by push_cast; ring
    simp only [human_readable_size, hrUnits]
    rw [hcast]
    rw [hrLoop_step _ _ _ (by norm_num),
      show (1024 : ℚ) ^ 6 / 1024 = 1024 ^ 5 by norm_num,
      hrLoop_step _ _ _ (by norm_num),
      show (1024 : ℚ) ^ 5 / 1024 = 1024 ^ 4 by norm_num,
      hrLoop_step _ _ _ (by norm_num),
      show (1024 : ℚ) ^ 4 / 1024 = 1024 ^ 3 by norm_num,
      hrLoop_step _ _ _ (by norm_num),
      show (1024 : ℚ) ^ 3 / 1024 = 1024 ^ 2 by norm_num,
      hrLoop_step _ _ _ (by norm_num),
      show (1024 : ℚ) ^ 2 / 1024 = ((1024 : ℕ) : ℚ) by norm_num]
    simp only [hrLoop]
    rw [format2_natCast]
    rfl
  · intro hlt
    rw [show ((1024 ^ 6 : ℕ) : ℚ) = 1024 ^ 6 by push_cast; ring] at hlt
    norm_num at hlt

/-- Witness for claim C9 at 500 bytes, inside the exact range. -/
theorem claim9_witness :
    (500 : ℕ) < 2 ^ 53 ∧
      human_readable_size 500 =
        format2 (((500 : ℕ) : ℚ) / 1024 ^ hrSpecIdx 500) ++ " " ++
          hrUnitName (hrSpecIdx 500) :=
  ⟨by norm_num, (claim9_amended 500 (by norm_num)).1⟩
